import Mathlib

/-!
Verification of the deploy pipeline in `lib/deployer.js` (hexo-deployer-tencent).

The JavaScript source is shallowly embedded: each function that the claims
refer to is translated into an executable Lean definition.  External
collaborators (the COS object store, the EdgeOne API, the npm `retry`
package) are modelled as oracles / environments whose responses are inputs
to the definitions, exactly at the call boundaries the source uses.
JavaScript strings are modelled as `String`, with the JS operations
`startsWith`, `endsWith`, `toLowerCase`, `split`, `slice` given explicit
character-list based definitions with the same semantics.
-/

/-! ### String helpers (JS string operations) -/

/-- JS `s.startsWith(t)`. -/
def strStartsWith (s t : String) : Bool := t.data.isPrefixOf s.data

/-- JS `s.endsWith(t)`. -/
def strEndsWith (s t : String) : Bool := t.data.isSuffixOf s.data

/-- JS `s.slice(0, s.length - n)`: drop the last `n` characters. -/
def strDropRight (s : String) (n : Nat) : String := ⟨s.data.take (s.data.length - n)⟩

/-- JS `s.toLowerCase()` (ASCII-adequate, as used for file extensions). -/
def strToLower (s : String) : String := ⟨s.data.map Char.toLower⟩

/-- JS `s.split(c)` on a single-character separator, as a list of char lists. -/
def splitChar (c : Char) : List Char → List (List Char)
  | [] => [[]]
  | x :: xs =>
    let r := splitChar c xs
    if x = c then [] :: r
    else
      match r with
      | [] => [[x]]
      | h :: t => (x :: h) :: t

/-! ### Digest comparison and the upload phase (`main`, deployer.js 322-336)

`main` processes every local file concurrently (under `pLimit`): it computes
the local MD5, calls `cos.headObject`, compares the quote-stripped `ETag`
with the MD5, uploads when they differ or the object is absent, and pushes
the key onto `changedFiles` only after `uploadFile` resolved.  We model the
per-file behaviour as an event trace; the phase trace is the concatenation
of the per-file traces (one representative interleaving — all per-key
ordering facts proved below are interleaving-independent because every
event of a file's trace carries that file's key). -/

/-- Outcome of `cos.headObject` for a key: found (with the optional `ETag`
header), a 404 (`statusCode === 404`, treated as "needs upload"), or any
other error (rethrown by `main`). -/
inductive HeadResult where
  | found (etag : Option String)
  | notFound
  | failure
deriving DecidableEq

/-- Environment of one deploy's upload phase: the collaborator responses per
key — the MD5 digest `calculateMD5` returns, the `headObject` outcome, and
whether `uploadFile` (after its internal retries) succeeds. -/
structure CosEnv where
  md5 : String → String
  head : String → HeadResult
  uploadOk : String → Bool

/-- `data.ETag?.replace(/"/g, '')`: remove every `"` character. -/
def stripQuotes (s : String) : String := ⟨s.data.filter (fun c => c ≠ '"')⟩

/-- `data.ETag?.replace(/"/g, '') === localMD5` — an absent `ETag` compares
unequal to the digest string. -/
def etagMatches (etag : Option String) (md5 : String) : Bool :=
  match etag with
  | some e => stripQuotes e == md5
  | none => false

/-- Observable events of the upload phase. -/
inductive Ev where
  | headReq (k : String)
  | uploadAttempt (k : String)
  | uploadOk (k : String)
  | push (k : String)
  | failed (k : String)
deriving DecidableEq

/-- The key an event is about. -/
def evKey : Ev → String
  | .headReq k => k
  | .uploadAttempt k => k
  | .uploadOk k => k
  | .push k => k
  | .failed k => k

/-- Events of `await uploadFile(...); changedFiles.push(key)`: the upload is
attempted; on success the key is pushed, on (post-retry) failure the
per-file task rejects. -/
def uploadEvs (env : CosEnv) (k : String) : List Ev :=
  Ev.uploadAttempt k :: (if env.uploadOk k then [Ev.uploadOk k, Ev.push k] else [Ev.failed k])

/-- Trace of one file's processing in `main` (deployer.js 322-336):
`if (!localMD5) return;` then `headObject`; a quote-stripped `ETag` equal to
the local MD5 skips; a 404 or a differing `ETag` leads to `uploadFile`; any
other `headObject` error rethrows. -/
def fileTrace (env : CosEnv) (k : String) : List Ev :=
  if env.md5 k = "" then []
  else
    Ev.headReq k ::
      match env.head k with
      | .found etag => if etagMatches etag (env.md5 k) then [] else uploadEvs env k
      | .notFound => uploadEvs env k
      | .failure => [Ev.failed k]

/-- Trace of the whole upload phase over the list of local file keys. -/
def phaseTrace (env : CosEnv) (files : List String) : List Ev :=
  (files.map (fileTrace env)).flatten

/-- The `changedFiles` accumulator: keys in push order. -/
def changedKeys (env : CosEnv) (files : List String) : List String :=
  (phaseTrace env files).filterMap (fun e =>
    match e with
    | Ev.push k => some k
    | _ => none)

/-! ### Remote reconciliation (`main` 338-342, `deleteCosFiles` 193-198) -/

/-- Line 319: `config.removeRemoteFiles ? await listCosFiles(...) : []`. -/
def remoteFilesIn (removeRemoteFiles : Bool) (listing : List String) : List String :=
  if removeRemoteFiles then listing else []

/-- Whether `listCosFiles` is invoked at all (line 319). -/
def listCosCalled (removeRemoteFiles : Bool) : Bool := removeRemoteFiles

/-- Line 340: `remoteFiles.filter(key => !localFileKeys.has(key))`. -/
def filesToDelete (remote localKeys : List String) : List String :=
  remote.filter (fun k => !(localKeys.contains k))

/-- `deleteCosFiles` (193-198): `if (!keys.length) return;` else a single
`deleteMultipleObject` request carrying all the keys.  `none` = no request
issued, `some ks` = one batched request with exactly `ks`. -/
def deleteRequest (keys : List String) : Option (List String) :=
  if keys.length = 0 then none else some keys

/-- The deletion phase of `main` (338-342): only entered when
`config.removeRemoteFiles` holds. -/
def deletePhase (removeRemoteFiles : Bool) (listing localKeys : List String) :
    Option (List String) :=
  if removeRemoteFiles then deleteRequest (filesToDelete (remoteFilesIn removeRemoteFiles listing) localKeys)
  else none

/-! ### The retrying operation executor (`uploadFile` 165-184, npm `retry`)

`uploadFile` builds `retry.operation({ retries: 3, factor: 2, minTimeout:
1000 })`.  The npm `retry` package (an external collaborator) computes a
timeout table of `retries` entries, `minTimeout * factor^i` for
`i = 0 .. retries-1` (randomization off, `maxTimeout` infinite), runs the
operation once, and on each failure consumes one table entry as the wait
before the next run; when the table is exhausted `operation.retry` returns
`false` and `uploadFile` rejects with the final error. -/

structure RetryPolicy where
  retries : Nat
  factor : Nat
  minTimeout : Nat
deriving DecidableEq

/-- The npm `retry` timeout table for a policy. -/
def retryTimeouts (p : RetryPolicy) : List Nat :=
  (List.range p.retries).map (fun i => p.minTimeout * p.factor ^ i)

/-- Execute the retry loop.  `op n` is the outcome of the `n`-th run of the
wrapped operation (0-indexed, `true` = success); the remaining timeout
table and the index of the current run are threaded.  Returns
`(number of runs performed, delays waited, final success)`. -/
def retryExec (op : Nat → Bool) : List Nat → Nat → Nat × List Nat × Bool
  | ts, n =>
    if op n then (n + 1, [], true)
    else
      match ts with
      | [] => (n + 1, [], false)
      | t :: ts' =>
        let r := retryExec op ts' (n + 1)
        (r.1, t :: r.2.1, r.2.2)

/-- One full execution of a retrying operation under a policy. -/
def runRetry (p : RetryPolicy) (op : Nat → Bool) : Nat × List Nat × Bool :=
  retryExec op (retryTimeouts p) 0

/-- The policy used by `uploadFile` (line 166) and by the purge-task loop of
`purgeEdgeOneCache` (line 282). -/
def uploadRetryPolicy : RetryPolicy := ⟨3, 2, 1000⟩

/-! ### URL derivation (`main` 345-357)

For every configured domain rule and every changed key, `main` skips keys
matching `ignorePaths` or `ignoreExtensions`, maps the root key
`index.html` to `/index.html`, optionally rewrites a trailing
`/index.html` to `/` (`refresh_index_page`), and resolves the path against
the domain with `new URL(path, domain)`.  Domains pass
`validateConfig`'s regex `^https?:\/\/[a-zA-Z0-9.-]+\.[a-zA-Z]{2,}$`, so
the base URL has no path component and resolution is plain concatenation
(for the slash-free relative paths produced here, without characters that
URL-serialisation would escape). -/

/-- A configured domain rule after `validateConfig` normalisation
(`ignorePaths` without leading/trailing slash, `ignoreExtensions`
lower-cased, each beginning with a dot). -/
structure DomainRule where
  domain : String
  ignorePaths : List String
  ignoreExtensions : List String

/-- Node's `path.extname` for the relative keys produced by the scanner:
the extension of the last path component — empty when the component has no
dot, when its only dot is its first character, or for `..`. -/
def lastDotIndex (cs : List Char) : Option Nat :=
  match cs.reverse.findIdx? (fun c => c = '.') with
  | none => none
  | some j => some (cs.length - 1 - j)

def extname (f : String) : String :=
  let base := (splitChar '/' f.data).getLastD []
  if base = ['.', '.'] then ""
  else
    match lastDotIndex base with
    | none => ""
    | some 0 => ""
    | some k => ⟨base.drop k⟩

/-- Line 349: `ignorePaths.some(p => p && (file.startsWith(p + '/') || file === p))`. -/
def keyMatchesIgnoredPath (rule : DomainRule) (file : String) : Bool :=
  rule.ignorePaths.any (fun p => (p != "") && (strStartsWith file (p ++ "/") || file == p))

/-- Line 350: `ignoreExtensions.includes(path.extname(file).toLowerCase())`. -/
def keyMatchesIgnoredExt (rule : DomainRule) (file : String) : Bool :=
  rule.ignoreExtensions.contains (strToLower (extname file))

/-- `new URL(rel, base).toString()` for a validated base (scheme + host,
no path) and a plain relative or absolute path. -/
def resolveUrl (base rel : String) : String :=
  base ++ (if strStartsWith rel "/" then rel else "/" ++ rel)

/-- Line 351: `if (file === 'index.html') file = '/index.html';`. -/
def rootAdjust (file : String) : String :=
  if file == "index.html" then "/index.html" else file

/-- Lines 352-354: rewrite a trailing `/index.html` segment to `/` when
`refresh_index_page` is on (`file.replace(/\/index\.html$/, '/')` drops
the 10 characters of `index.html`, keeping the slash). -/
def rewritePath (refreshIndexPage : Bool) (f : String) : String :=
  if refreshIndexPage && strEndsWith f "/index.html" then strDropRight f 10 else f

/-- The URL emitted by `main` (348-356) for one (rule, changed key) pair:
`none` when the key is filtered out, otherwise the invalidation URL. -/
def emitUrl (refreshIndexPage : Bool) (rule : DomainRule) (file : String) : Option String :=
  if keyMatchesIgnoredPath rule file then none
  else if keyMatchesIgnoredExt rule file then none
  else some (resolveUrl rule.domain (rewritePath refreshIndexPage (rootAdjust file)))

/-- All URLs collected by `main` (345-357): domains outer, changed keys
inner, in push order. -/
def deriveUrls (refreshIndexPage : Bool) (rules : List DomainRule) (changed : List String) :
    List String :=
  (rules.map (fun r => changed.filterMap (emitUrl refreshIndexPage r))).flatten

/-! ### EdgeOne invalidation (`purgeEdgeOneCache` 221-303)

The function validates the URLs, groups them by main domain (last two
hostname labels), and for each main domain: resolves a zone via
`DescribeZones` (a thrown request is rethrown as fatal; *no matching zone*
or an empty `ZoneId` merely logs and `continue`s), fetches the purge quota
via `DescribeContentQuota` (a thrown request is fatal), and builds purge
tasks — a single host-invalidate fallback on a free plan whose pending URL
count exceeds `dailyAvailable`, otherwise url-purge chunks.  Task
submission retries and swallows failures, so it never alters control
flow. -/

structure Zone where
  ZoneName : String
  ZoneId : String
deriving DecidableEq

/-- Entry of the `PurgeQuota` array of a `DescribeContentQuota` response;
every field may be absent. `qtype` models the JSON field `Type`. -/
structure PurgeQuotaItem where
  qtype : String
  batch : Option Nat
  daily : Option Nat
  dailyAvailable : Option Nat
deriving DecidableEq

structure Quota where
  batchLimit : Nat
  dailyLimit : Nat
  dailyAvailable : Nat
deriving DecidableEq

/-- JS `x || d` on an optional numeric field (`0` is falsy). -/
def jsOrNat (v : Option Nat) (d : Nat) : Nat :=
  match v with
  | none => d
  | some n => if n = 0 then d else n

/-- Lines 256-261: select the `purge_url` quota entry and default the
fields (`Batch || 500`, `Daily || 1000`, `DailyAvailable || 0`). -/
def mkQuota (items : List PurgeQuotaItem) : Quota :=
  let q := items.find? (fun i => i.qtype == "purge_url")
  { batchLimit := jsOrNat (q.bind (fun i => i.batch)) 500
    dailyLimit := jsOrNat (q.bind (fun i => i.daily)) 1000
    dailyAvailable := jsOrNat (q.bind (fun i => i.dailyAvailable)) 0 }

structure PurgeTask where
  ptype : String
  targets : List String
  method : String
deriving DecidableEq

/-- Line 268: `batchSize = isFreePlan ? 500 : 1000` where
`isFreePlan = (quota.batchLimit === 500)`. -/
def urlBatchSize (quota : Quota) : Nat :=
  if quota.batchLimit = 500 then 500 else 1000

/-- Lines 272-278: the created purge tasks for one main domain. -/
def buildTasks (quota : Quota) (mainDomain : String) (domainUrls : List String) :
    List PurgeTask :=
  if quota.batchLimit = 500 ∧ domainUrls.length > quota.dailyAvailable then
    [⟨"purge_host", [mainDomain], "invalidate"⟩]
  else
    (List.range ((domainUrls.length + urlBatchSize quota - 1) / urlBatchSize quota)).map
      (fun i =>
        ⟨"purge_url",
         (domainUrls.drop (i * urlBatchSize quota)).take (urlBatchSize quota),
         "delete"⟩)

/-- `new URL(u).hostname` for the http(s) URLs this deployer produces. -/
def hostnameOf (u : String) : String :=
  let rest : List Char :=
    if strStartsWith u "https://" then u.data.drop 8
    else if strStartsWith u "http://" then u.data.drop 7
    else u.data
  ⟨rest.takeWhile (fun c => c ≠ '/')⟩

/-- Line 232-235: `hostname.split('.').slice(-2).join('.')`. -/
def mainDomainOf (u : String) : String :=
  let labels := splitChar '.' (hostnameOf u).data
  ⟨List.intercalate ['.'] (labels.drop (labels.length - 2))⟩

/-- JS `Set` built from a list: first occurrences, in insertion order. -/
def jsSetOfList (l : List String) : List String :=
  l.foldl (fun acc x => if x ∈ acc then acc else acc ++ [x]) []

/-- Line 269: `urls.filter(u => new URL(u).hostname.endsWith(mainDomain))`. -/
def domainUrlsFor (urls : List String) (mainDomain : String) : List String :=
  urls.filter (fun u => strEndsWith (hostnameOf u) mainDomain)

/-- Collaborator responses for one invalidation pass: the `DescribeZones`
outcome (`.error ()` = the request threw) and the `DescribeContentQuota`
outcome per zone id (the `PurgeQuota` array, absent modelled as `[]`). -/
structure EdgeOneEnv where
  zonesResp : Except Unit (List Zone)
  quotaResp : String → Except Unit (List PurgeQuotaItem)

/-- Line 242: the zone whose name equals the main domain or ends in
`"." + mainDomain`. -/
def findZone (zones : List Zone) (mainDomain : String) : Option Zone :=
  zones.find? (fun z => z.ZoneName == mainDomain || strEndsWith z.ZoneName ("." ++ mainDomain))

/-- What happened to one main domain in the loop body (237-301). -/
inductive DomainOutcome where
  | skippedNoZone
  | done (zoneId : String) (tasks : List PurgeTask)
deriving DecidableEq

/-- Loop body for one main domain: a thrown `DescribeZones` or
`DescribeContentQuota` request is fatal (`throw new Error(...)`); a missing
zone match or falsy `ZoneId` logs and `continue`s. -/
def processDomain (env : EdgeOneEnv) (urls : List String) (d : String) :
    Except Unit DomainOutcome :=
  match env.zonesResp with
  | .error _ => .error ()
  | .ok zones =>
    match findZone zones d with
    | none => .ok .skippedNoZone
    | some z =>
      if z.ZoneId = "" then .ok .skippedNoZone
      else
        match env.quotaResp z.ZoneId with
        | .error _ => .error ()
        | .ok items =>
          .ok (.done z.ZoneId (buildTasks (mkQuota items) d (domainUrlsFor urls d)))

/-- The `for (const mainDomain of mainDomains)` loop: a fatal body outcome
aborts the whole pass, a skip proceeds with the remaining domains. -/
def purgeLoop (env : EdgeOneEnv) (urls : List String) :
    List String → Except Unit (List (String × DomainOutcome))
  | [] => .ok []
  | d :: ds =>
    match processDomain env urls d with
    | .error e => .error e
    | .ok o => (purgeLoop env urls ds).map (fun r => (d, o) :: r)

/-- Syntactic URL validity as `new URL(u)` sees it, for the http(s) URLs
this plugin builds (223-229): a malformed entry makes the whole pass
return after logging, with no task created. -/
def isValidUrlModel (u : String) : Bool :=
  (strStartsWith u "https://" || strStartsWith u "http://") && (hostnameOf u != "")

/-- `purgeEdgeOneCache` (221-303). -/
def purgeEdgeOneCacheModel (env : EdgeOneEnv) (urls : List String) :
    Except Unit (List (String × DomainOutcome)) :=
  if urls.any (fun u => !(isValidUrlModel u)) then .ok []
  else purgeLoop env urls (jsSetOfList (urls.map mainDomainOf))

/-! ## Helper lemmas -/

theorem deleteRequest_getD (keys : List String) : (deleteRequest keys).getD [] = keys := by
  unfold deleteRequest
  split
  · next h => simp [List.length_eq_zero.mp h]
  · rfl

theorem mem_filesToDelete (remote localKeys : List String) (k : String) :
    k ∈ filesToDelete remote localKeys ↔ k ∈ remote ∧ k ∉ localKeys := by
  simp [filesToDelete]

theorem retryExec_attempts_le (op : Nat → Bool) :
    ∀ (ts : List Nat) (n : Nat), (retryExec op ts n).1 ≤ n + ts.length + 1 := by
  intro ts
  induction ts with
  | nil =>
    intro n
    unfold retryExec
    split <;> simp
  | cons t ts' ih =>
    intro n
    unfold retryExec
    split
    · simp
    · have := ih (n + 1)
      simp only [List.length_cons]
      omega

theorem retryExec_delays_ok (op : Nat → Bool) :
    ∀ (ts : List Nat) (n : Nat), (retryExec op ts n).2.1 <+: ts := by
  intro ts
  induction ts with
  | nil =>
    intro n
    unfold retryExec
    split <;> exact List.nil_prefix
  | cons t ts' ih =>
    intro n
    unfold retryExec
    split
    · exact List.nil_prefix
    · obtain ⟨r, hr⟩ := ih (n + 1)
      exact ⟨r, by rw [List.cons_append, hr]⟩

theorem retryExec_allFail (op : Nat → Bool) (h : ∀ n, op n = false) :
    ∀ (ts : List Nat) (n : Nat), retryExec op ts n = (n + ts.length + 1, ts, false) := by
  intro ts
  induction ts with
  | nil =>
    intro n
    unfold retryExec
    rw [h n]
    simp
  | cons t ts' ih =>
    intro n
    unfold retryExec
    rw [h n]
    simp only [Bool.false_eq_true, if_false]
    rw [ih (n + 1)]
    simp only [List.length_cons]
    exact congrArg (fun m => (m, t :: ts', false)) (by omega)

theorem buildTasks_free (quota : Quota) (mainDomain : String) (domainUrls : List String)
    (h1 : quota.batchLimit = 500) (h2 : domainUrls.length > quota.dailyAvailable) :
    buildTasks quota mainDomain domainUrls = [⟨"purge_host", [mainDomain], "invalidate"⟩] := by
  unfold buildTasks
  rw [if_pos ⟨h1, h2⟩]

theorem chunks_flatten_aux {α : Type} (n : Nat) :
    ∀ (k : Nat) (l : List α), l.length ≤ k * n →
      ((List.range k).map (fun i => (l.drop (i * n)).take n)).flatten = l := by
  intro k
  induction k with
  | zero =>
    intro l h
    simp only [Nat.zero_mul, Nat.le_zero] at h
    simp [List.length_eq_zero.mp h]
  | succ k ih =>
    intro l h
    rw [List.range_succ_eq_map]
    simp only [List.map_cons, List.map_map, List.flatten_cons, Nat.zero_mul, List.drop_zero]
    have hrw : ((List.range k).map (Nat.succ)).map (fun i => (l.drop (i * n)).take n) =
        (List.range k).map (fun i => ((l.drop n).drop (i * n)).take n) := by
      rw [List.map_map]
      apply List.map_congr_left
      intro i _
      simp only [Function.comp_apply]
      rw [List.drop_drop]
      have hmn : n + i * n = Nat.succ i * n := by
        rw [Nat.succ_mul, Nat.add_comm]
      rw [hmn]
    rw [← List.map_map, hrw, ih (l.drop n)]
    · exact List.take_append_drop n l
    · have hsm : (k + 1) * n = k * n + n := by ring
      simp only [List.length_drop]
      omega

theorem chunks_flatten {α : Type} (n : Nat) (hn : 0 < n) (l : List α) :
    ((List.range ((l.length + n - 1) / n)).map (fun i => (l.drop (i * n)).take n)).flatten = l := by
  apply chunks_flatten_aux
  have hdm := Nat.div_add_mod (l.length + n - 1) n
  have hmlt : (l.length + n - 1) % n < n := Nat.mod_lt _ hn
  have hms : ((l.length + n - 1) / n) * n = n * ((l.length + n - 1) / n) := Nat.mul_comm _ _
  omega

theorem mkQuota_defaults (items : List PurgeQuotaItem)
    (h : ∀ q, items.find? (fun i => i.qtype == "purge_url") = some q →
        q.batch = none ∧ q.daily = none ∧ q.dailyAvailable = none) :
    mkQuota items = ⟨500, 1000, 0⟩ := by
  unfold mkQuota
  cases hfind : items.find? (fun i => i.qtype == "purge_url") with
  | none => simp [hfind, jsOrNat]
  | some q =>
    obtain ⟨hb, hd, ha⟩ := h q hfind
    simp [hfind, hb, hd, ha, jsOrNat]

/-! ## Claim theorems -/

/-- C3: The set of keys submitted for remote deletion equals exactly
`remoteKeys − localKeys` (against the full local key set); when
`remove_remote_files` is disabled the set is empty and neither a listing
nor a delete call happens; an empty set issues no delete request, and a
non-empty set issues a single batched request for the whole set. -/
theorem deletePhase_diff_exact (flag : Bool) (listing localKeys : List String) :
    (∀ k, k ∈ (deletePhase flag listing localKeys).getD [] ↔
        (flag = true ∧ k ∈ listing ∧ k ∉ localKeys))
    ∧ (flag = false →
        deletePhase flag listing localKeys = none ∧
        remoteFilesIn flag listing = [] ∧ listCosCalled flag = false)
    ∧ (filesToDelete listing localKeys = [] → deletePhase true listing localKeys = none)
    ∧ (∀ ks, filesToDelete listing localKeys = ks → ks ≠ [] →
        deletePhase true listing localKeys = some ks) := by
  refine ⟨?_, ?_, ?_, ?_⟩
  · intro k
    cases flag with
    | false => simp [deletePhase]
    | true =>
      show k ∈ (deleteRequest (filesToDelete listing localKeys)).getD [] ↔ _
      rw [deleteRequest_getD, mem_filesToDelete]
      simp
  · intro h
    subst h
    exact ⟨rfl, rfl, rfl⟩
  · intro h
    show deleteRequest (filesToDelete listing localKeys) = none
    rw [h]
    rfl
  · intro ks hks hne
    show deleteRequest (filesToDelete listing localKeys) = some ks
    rw [hks]
    unfold deleteRequest
    rw [if_neg]
    simpa using hne

/-- Witness for C3 at a concrete input: with the flag on, remote keys
`["a", "b"]` and local keys `["b"]`, exactly `["a"]` is submitted in one
batched request. -/
theorem deletePhase_diff_exact_witness :
    deletePhase true ["a", "b"] ["b"] = some ["a"] :=
  (deletePhase_diff_exact true ["a", "b"] ["b"]).2.2.2 ["a"] (by decide) (by decide)

/-- C4 counterexample: under `uploadFile`'s policy `{retries: 3, factor: 2,
minTimeout: 1000}` an always-failing operation is run 4 times, so the
claimed bound of at most 3 attempts total is false. -/
theorem uploadRetry_four_attempts_cex :
    (runRetry uploadRetryPolicy (fun _ => false)).1 = 4 ∧
    ¬((runRetry uploadRetryPolicy (fun _ => false)).1 ≤ 3) := by
  decide

/-- C4 (amended): the executor under the default policy performs at most 4
attempts total including the first (3 retries), the waits between attempts
are drawn in order from 1s, 2s, 4s, and an operation that fails every
attempt is run exactly 4 times, waits 1s, 2s and 4s, and ends in failure
(which `uploadFile` surfaces by rejecting with the final error). -/
theorem uploadRetry_amended (op : Nat → Bool) :
    (runRetry uploadRetryPolicy op).1 ≤ 4
    ∧ (runRetry uploadRetryPolicy op).2.1 <+: [1000, 2000, 4000]
    ∧ ((∀ n, op n = false) →
        runRetry uploadRetryPolicy op = (4, [1000, 2000, 4000], false)) := by
  have hts : retryTimeouts uploadRetryPolicy = [1000, 2000, 4000] := by decide
  refine ⟨?_, ?_, ?_⟩
  · have := retryExec_attempts_le op (retryTimeouts uploadRetryPolicy) 0
    rw [hts] at this
    simpa [runRetry, hts] using this
  · have := retryExec_delays_ok op (retryTimeouts uploadRetryPolicy) 0
    rw [hts] at this
    simpa [runRetry, hts] using this
  · intro h
    have := retryExec_allFail op h (retryTimeouts uploadRetryPolicy) 0
    rw [hts] at this
    simpa [runRetry, hts] using this

/-- Witness for C4 (amended) at the always-failing operation. -/
theorem uploadRetry_amended_witness :
    runRetry uploadRetryPolicy (fun _ => false) = (4, [1000, 2000, 4000], false) :=
  (uploadRetry_amended (fun _ => false)).2.2 (fun _ => rfl)

/-- C6: on a constrained plan (`batchLimit = 500`) with more pending URLs
than the remaining daily quota, exactly one host-invalidate task is
created for the main domain (targets = the main domain, method =
`invalidate`) and no url-purge task. -/
theorem constrainedPlan_host_fallback (quota : Quota) (mainDomain : String)
    (domainUrls : List String) (h1 : quota.batchLimit = 500)
    (h2 : domainUrls.length > quota.dailyAvailable) :
    buildTasks quota mainDomain domainUrls = [⟨"purge_host", [mainDomain], "invalidate"⟩] :=
  buildTasks_free quota mainDomain domainUrls h1 h2

/-- Witness for C6 at the spec's example: `dailyAvailable = 100` and 300
pending URLs. -/
theorem constrainedPlan_host_fallback_witness :
    buildTasks ⟨500, 1000, 100⟩ "example.com"
        (List.replicate 300 "https://blog.example.com/p/") =
      [⟨"purge_host", ["example.com"], "invalidate"⟩] :=
  constrainedPlan_host_fallback ⟨500, 1000, 100⟩ "example.com"
    (List.replicate 300 "https://blog.example.com/p/") rfl
    (by rw [List.length_replicate]; show 100 < 300; omega)

/-- The quota and URL list of the C7 counterexample: a paid-plan zone whose
per-submission limit is 2000 and 1001 pending URLs. -/
def c7Quota : Quota := ⟨2000, 10000, 100000⟩

def c7Urls : List String := List.replicate 1001 "https://site.example.com/a"

set_option maxRecDepth 40000 in
/-- C7 counterexample: with `batchLimit = 2000` and 1001 pending URLs the
code creates two url-purge tasks of sizes 1000 and 1, not batches sized to
the zone's `batchLimit` (which would be a single task of 1001): the chunk
size is the hard-coded `isFreePlan ? 500 : 1000`, not `quota.batchLimit`. -/
theorem batchSize_not_batchLimit_cex :
    ((buildTasks c7Quota "example.com" c7Urls).map (fun t => t.targets.length) = [1000, 1])
    ∧ ¬((buildTasks c7Quota "example.com" c7Urls).map (fun t => t.targets.length) =
        [c7Urls.length]) := by
  have h1 : (buildTasks c7Quota "example.com" c7Urls).map (fun t => t.targets.length) =
      [1000, 1] := by rfl
  have h2 : c7Urls.length = 1001 := by rfl
  rw [h1, h2]
  simp

/-- C7 (amended): when the host-fallback condition does not apply, the
pending URLs are chunked into batches of size 500 on a constrained plan
(`batchLimit = 500`) and 1000 otherwise — `urlBatchSize`, not the zone's
`batchLimit` — with one url-purge task (method `delete`) per chunk: the
task count is `⌈urls / batchSize⌉`, the chunks concatenate back to the URL
list, and every chunk has at most `batchSize` entries. -/
theorem urlPurge_chunking (quota : Quota) (mainDomain : String) (urls : List String)
    (h : ¬(quota.batchLimit = 500 ∧ urls.length > quota.dailyAvailable)) :
    (buildTasks quota mainDomain urls).length =
      (urls.length + urlBatchSize quota - 1) / urlBatchSize quota
    ∧ ((buildTasks quota mainDomain urls).map (fun t => t.targets)).flatten = urls
    ∧ ∀ t ∈ buildTasks quota mainDomain urls,
        t.ptype = "purge_url" ∧ t.method = "delete" ∧
        t.targets.length ≤ urlBatchSize quota := by
  have hbs : 0 < urlBatchSize quota := by
    unfold urlBatchSize
    split <;> omega
  unfold buildTasks
  rw [if_neg h]
  refine ⟨by simp, ?_, ?_⟩
  · rw [List.map_map]
    exact chunks_flatten (urlBatchSize quota) hbs urls
  · intro t ht
    simp only [List.mem_map, List.mem_range] at ht
    obtain ⟨i, _, rfl⟩ := ht
    exact ⟨rfl, rfl, List.length_take_le _ _⟩

/-- Witness for C7 (amended) at the spec's example: `batchLimit = 1000`
and 2500 pending URLs give `⌈2500/1000⌉ = 3` url-purge tasks. -/
theorem urlPurge_chunking_witness :
    (buildTasks ⟨1000, 10000, 0⟩ "example.com"
        (List.replicate 2500 "https://example.com/x")).length =
      ((List.replicate 2500 "https://example.com/x").length + urlBatchSize ⟨1000, 10000, 0⟩ - 1) /
        urlBatchSize ⟨1000, 10000, 0⟩ :=
  (urlPurge_chunking ⟨1000, 10000, 0⟩ "example.com"
      (List.replicate 2500 "https://example.com/x")
      (by intro hc; exact absurd hc.1 (by decide))).1

/-- C10: when the quota response has no `purge_url` entry (or the entry
has no `Batch`/`Daily`/`DailyAvailable` fields), the defaults
`batchLimit = 500`, `dailyLimit = 1000`, `dailyAvailable = 0` are used;
since 500 marks the constrained plan and any positive pending count
exceeds 0, every non-empty URL set then yields the single host-invalidate
fallback task. -/
theorem quotaDefaults_force_host_fallback (items : List PurgeQuotaItem)
    (h : ∀ q, items.find? (fun i => i.qtype == "purge_url") = some q →
        q.batch = none ∧ q.daily = none ∧ q.dailyAvailable = none)
    (mainDomain : String) (urls : List String) (hne : urls ≠ []) :
    mkQuota items = ⟨500, 1000, 0⟩
    ∧ buildTasks (mkQuota items) mainDomain urls =
        [⟨"purge_host", [mainDomain], "invalidate"⟩] := by
  have hq := mkQuota_defaults items h
  refine ⟨hq, ?_⟩
  rw [hq]
  exact buildTasks_free _ _ _ rfl (List.length_pos.mpr hne)

/-- Witness for C10: an empty quota response and one pending URL. -/
theorem quotaDefaults_force_host_fallback_witness :
    mkQuota [] = ⟨500, 1000, 0⟩
    ∧ buildTasks (mkQuota []) "example.com" ["https://www.example.com/"] =
        [⟨"purge_host", ["example.com"], "invalidate"⟩] :=
  quotaDefaults_force_host_fallback [] (by intro q hq; cases hq) "example.com"
    ["https://www.example.com/"] (by decide)

/-- Environment of the C5 counterexample: `DescribeZones` succeeds and
returns a single zone bound to `two.org`; every quota request succeeds
with an empty `PurgeQuota` array. -/
def c5Env : EdgeOneEnv := ⟨.ok [⟨"two.org", "zid2"⟩], fun _ => .ok []⟩

def c5Urls : List String := ["https://a.one.com/x", "https://b.two.org/y"]

/-- C5 counterexample: with pending URLs for main domains `one.com` and
`two.org` and no zone matching `one.com`, the invalidation pass does NOT
raise: it logs, skips `one.com` (`continue`), and still processes
`two.org` — contradicting the claim that a missing zone match aborts the
invalidation phase. -/
theorem zoneMissing_continues_cex :
    findZone [⟨"two.org", "zid2"⟩] "one.com" = none
    ∧ purgeEdgeOneCacheModel c5Env c5Urls =
        .ok [("one.com", DomainOutcome.skippedNoZone),
             ("two.org", DomainOutcome.done "zid2"
                [⟨"purge_host", ["two.org"], "invalidate"⟩])] :=
  ⟨rfl, rfl⟩

/-- C5 (amended): a failure of the zone-listing call itself
(`DescribeZones` throwing) is fatal and aborts the invalidation phase,
but failure to find a matching zone for a main domain is non-fatal: that
main domain is skipped and the loop continues with the remaining main
domains. -/
theorem zoneResolution_amended (env : EdgeOneEnv) (urls : List String)
    (d : String) (ds : List String) :
    (env.zonesResp = .error () → purgeLoop env urls (d :: ds) = .error ())
    ∧ (∀ zones, env.zonesResp = .ok zones → findZone zones d = none →
        purgeLoop env urls (d :: ds) =
          (purgeLoop env urls ds).map
            (fun r => (d, DomainOutcome.skippedNoZone) :: r)) := by
  constructor
  · intro h
    simp [purgeLoop, processDomain, h]
  · intro zones hz hf
    simp [purgeLoop, processDomain, hz, hf]

/-- Witness for C5 (amended): one unmatched main domain is skipped and
the (empty) remainder of the loop still runs. -/
theorem zoneResolution_amended_witness :
    purgeLoop ⟨.ok [], fun _ => .ok []⟩ [] ["one.com"] =
      (purgeLoop ⟨.ok [], fun _ => .ok []⟩ [] []).map
        (fun r => ("one.com", DomainOutcome.skippedNoZone) :: r) :=
  (zoneResolution_amended ⟨.ok [], fun _ => .ok []⟩ [] "one.com" []).2 [] rfl rfl

theorem ignoredPath_entry_iff (file p : String) (h1 : file ≠ "")
    (h2 : strStartsWith file "/" = false) :
    (((p != "") && (strStartsWith file (p ++ "/") || file == p)) = false ↔
      (strStartsWith file (p ++ "/") = false ∧ file ≠ p)) := by
  by_cases hpe : p = ""
  · subst hpe
    have hap : ("" : String) ++ "/" = "/" := by decide
    rw [hap]
    simp [h2]
    exact h1
  · have hpeb : (p != "") = true := by simpa using hpe
    rw [hpeb]
    simp

theorem keyMatchesIgnoredPath_false_iff (rule : DomainRule) (file : String)
    (h1 : file ≠ "") (h2 : strStartsWith file "/" = false) :
    (keyMatchesIgnoredPath rule file = false ↔
      ∀ p ∈ rule.ignorePaths, strStartsWith file (p ++ "/") = false ∧ file ≠ p) := by
  unfold keyMatchesIgnoredPath
  rw [List.any_eq_false]
  simp only [Bool.not_eq_true]
  exact forall₂_congr (fun p hp => ignoredPath_entry_iff file p h1 h2)

theorem keyMatchesIgnoredExt_false_iff (rule : DomainRule) (file : String) :
    (keyMatchesIgnoredExt rule file = false ↔
      strToLower (extname file) ∉ rule.ignoreExtensions) := by
  unfold keyMatchesIgnoredExt
  rw [← Bool.not_eq_true]
  simp

theorem emitUrl_isSome_eq (refresh : Bool) (rule : DomainRule) (file : String) :
    (emitUrl refresh rule file).isSome =
      (!keyMatchesIgnoredPath rule file && !keyMatchesIgnoredExt rule file) := by
  unfold emitUrl
  by_cases hp : keyMatchesIgnoredPath rule file = true <;>
    by_cases he : keyMatchesIgnoredExt rule file = true <;>
      simp [hp, he]

/-- C8: for a changed key (a non-empty relative path, no leading slash)
and a domain rule, an invalidation URL is emitted iff the key neither
starts with an `ignorePaths` entry followed by `/` nor equals an entry,
and the key's lower-cased extension is not in `ignoreExtensions`. -/
theorem urlEmission_iff (refresh : Bool) (rule : DomainRule) (file : String)
    (h1 : file ≠ "") (h2 : strStartsWith file "/" = false) :
    ((emitUrl refresh rule file).isSome = true ↔
      ((∀ p ∈ rule.ignorePaths, strStartsWith file (p ++ "/") = false ∧ file ≠ p)
       ∧ strToLower (extname file) ∉ rule.ignoreExtensions)) := by
  rw [emitUrl_isSome_eq, Bool.and_eq_true, Bool.not_eq_true', Bool.not_eq_true']
  rw [keyMatchesIgnoredPath_false_iff rule file h1 h2,
    keyMatchesIgnoredExt_false_iff rule file]

/-- Witness for C8: the key `css/app.css` passes a rule ignoring the
`js` path and the `.map` extension, so a URL is emitted for it. -/
theorem urlEmission_iff_witness :
    (emitUrl false ⟨"https://cdn.example.com", ["js", ""], [".map"]⟩ "css/app.css").isSome =
      true :=
  (urlEmission_iff false ⟨"https://cdn.example.com", ["js", ""], [".map"]⟩ "css/app.css"
      (by decide) (by decide)).2 (by decide)

theorem strEndsWith_iff (s t : String) : (strEndsWith s t = true ↔ t.data <:+ s.data) := by
  simp [strEndsWith]

theorem resolveUrl_data_suffix (base rel : String) : rel.data <:+ (resolveUrl base rel).data := by
  unfold resolveUrl
  split
  · rw [String.data_append]
    exact List.suffix_append _ _
  · rw [String.data_append, String.data_append, ← List.append_assoc]
    exact List.suffix_append _ _

theorem emitUrl_eq_some (refresh : Bool) (rule : DomainRule) (file u : String)
    (h : emitUrl refresh rule file = some u) :
    u = resolveUrl rule.domain (rewritePath refresh (rootAdjust file)) := by
  unfold emitUrl at h
  by_cases hp : keyMatchesIgnoredPath rule file = true
  · rw [if_pos hp] at h
    cases h
  · rw [if_neg hp] at h
    by_cases he : keyMatchesIgnoredExt rule file = true
    · rw [if_pos he] at h
      cases h
    · rw [if_neg he] at h
      exact (Option.some.inj h).symm

/-- C9: with `refresh_index_page` on, an emitted URL for the root key
`index.html` is the domain root `domain ++ "/"`, and an emitted URL for a
key ending in the segment `/index.html` is the resolution of the key with
its trailing `index.html` dropped — a path ending in `/`; with the flag
off, the emitted URL is the unrewritten resolution of the (root-adjusted)
key, still ending in `index.html` whenever the key does. -/
theorem refreshIndexPage_rewrite (rule : DomainRule) (file u : String) :
    (emitUrl true rule file = some u →
      ((file = "index.html" → u = rule.domain ++ "/")
       ∧ (strEndsWith file "/index.html" = true →
           u = resolveUrl rule.domain (strDropRight file 10)
           ∧ strEndsWith u "/" = true)))
    ∧ (emitUrl false rule file = some u →
        (u = resolveUrl rule.domain (rootAdjust file)
         ∧ (strEndsWith file "index.html" = true →
             strEndsWith u "index.html" = true))) := by
  constructor
  · intro hemit
    have hu := emitUrl_eq_some true rule file u hemit
    constructor
    · intro hfi
      subst hfi
      have hr : rewritePath true (rootAdjust "index.html") = "/" := by decide
      rw [hr] at hu
      have hres : resolveUrl rule.domain "/" = rule.domain ++ "/" := by
        unfold resolveUrl
        rw [if_pos (by decide)]
      rw [hres] at hu
      exact hu
    · intro hew
      obtain ⟨pre, hpre⟩ := (strEndsWith_iff file "/index.html").mp hew
      have hlen : file.data.length = pre.length + 11 := by
        rw [← hpre, List.length_append]
        congr 1
      have hne : (file == "index.html") = false := by
        rw [beq_eq_false_iff_ne]
        intro heq
        rw [heq] at hlen
        have h10' : ("index.html" : String).data.length = 10 := rfl
        omega
      have hra : rootAdjust file = file := by
        unfold rootAdjust
        rw [hne]
        rfl
      have hrw : rewritePath true file = strDropRight file 10 := by
        unfold rewritePath
        rw [if_pos (by simp [hew])]
      rw [hra, hrw] at hu
      refine ⟨hu, ?_⟩
      have hdata : (strDropRight file 10).data = pre ++ ['/'] := by
        unfold strDropRight
        have h10 : file.data.length - 10 = pre.length + 1 := by omega
        rw [h10, ← hpre]
        have hidx : ("/index.html" : String).data = '/' :: ("index.html" : String).data := by
          decide
        rw [hidx, List.take_append]
        rfl
      apply (strEndsWith_iff u "/").mpr
      have hsl : ("/" : String).data <:+ (strDropRight file 10).data := by
        rw [hdata]
        exact List.suffix_append pre _
      rw [hu]
      exact hsl.trans (resolveUrl_data_suffix rule.domain (strDropRight file 10))
  · intro hemit
    have hu := emitUrl_eq_some false rule file u hemit
    have hrw : rewritePath false (rootAdjust file) = rootAdjust file := by
      unfold rewritePath
      rw [if_neg]
      simp
    rw [hrw] at hu
    refine ⟨hu, ?_⟩
    intro hew
    apply (strEndsWith_iff u "index.html").mpr
    have hsub : ("index.html" : String).data <:+ (rootAdjust file).data := by
      unfold rootAdjust
      by_cases hfe : (file == "index.html") = true
      · rw [if_pos hfe]
        decide
      · rw [if_neg (by simpa using hfe)]
        exact (strEndsWith_iff file "index.html").mp hew
    rw [hu]
    exact hsub.trans (resolveUrl_data_suffix rule.domain (rootAdjust file))

/-- Witness for C9: with the flag on, the key `a/index.html` under domain
`https://example.com` is emitted as a directory URL ending in `/`. -/
theorem refreshIndexPage_rewrite_witness :
    "https://example.com/a/" =
      resolveUrl "https://example.com" (strDropRight "a/index.html" 10)
    ∧ strEndsWith "https://example.com/a/" "/" = true :=
  ((refreshIndexPage_rewrite ⟨"https://example.com", [], []⟩ "a/index.html"
      "https://example.com/a/").1 rfl).2 rfl

theorem fileTrace_md5_empty (env : CosEnv) (f : String) (hm : env.md5 f = "") :
    fileTrace env f = [] := by
  unfold fileTrace
  rw [if_pos hm]

theorem fileTrace_found_eq (env : CosEnv) (f : String) (etag : Option String)
    (hm : env.md5 f ≠ "") (hh : env.head f = HeadResult.found etag) :
    fileTrace env f =
      Ev.headReq f :: (if etagMatches etag (env.md5 f) then [] else uploadEvs env f) := by
  unfold fileTrace
  rw [if_neg hm, hh]

theorem fileTrace_notFound_eq (env : CosEnv) (f : String)
    (hm : env.md5 f ≠ "") (hh : env.head f = HeadResult.notFound) :
    fileTrace env f = Ev.headReq f :: uploadEvs env f := by
  unfold fileTrace
  rw [if_neg hm, hh]

theorem fileTrace_failure_eq (env : CosEnv) (f : String)
    (hm : env.md5 f ≠ "") (hh : env.head f = HeadResult.failure) :
    fileTrace env f = [Ev.headReq f, Ev.failed f] := by
  unfold fileTrace
  rw [if_neg hm, hh]

theorem evKey_of_mem_uploadEvs (env : CosEnv) (k : String) (e : Ev)
    (h : e ∈ uploadEvs env k) : evKey e = k := by
  unfold uploadEvs at h
  by_cases hup : env.uploadOk k = true
  · rw [if_pos hup] at h
    simp at h
    rcases h with rfl | rfl | rfl <;> rfl
  · rw [if_neg hup] at h
    simp at h
    rcases h with rfl | rfl <;> rfl

theorem uploadOk_of_push_mem_uploadEvs (env : CosEnv) (k k' : String)
    (h : Ev.push k' ∈ uploadEvs env k) : env.uploadOk k = true := by
  unfold uploadEvs at h
  by_cases hup : env.uploadOk k = true
  · exact hup
  · rw [if_neg hup] at h
    simp at h

theorem evKey_of_mem_fileTrace (env : CosEnv) (f : String) (e : Ev)
    (h : e ∈ fileTrace env f) : evKey e = f := by
  by_cases hm : env.md5 f = ""
  · rw [fileTrace_md5_empty env f hm] at h
    simp at h
  · cases hh : env.head f with
    | found etag =>
      rw [fileTrace_found_eq env f etag hm hh] at h
      rw [List.mem_cons] at h
      rcases h with rfl | h
      · rfl
      · by_cases hc : etagMatches etag (env.md5 f) = true
        · rw [if_pos hc] at h
          simp at h
        · rw [if_neg hc] at h
          exact evKey_of_mem_uploadEvs env f e h
    | notFound =>
      rw [fileTrace_notFound_eq env f hm hh] at h
      rw [List.mem_cons] at h
      rcases h with rfl | h
      · rfl
      · exact evKey_of_mem_uploadEvs env f e h
    | failure =>
      rw [fileTrace_failure_eq env f hm hh] at h
      simp at h
      rcases h with rfl | rfl <;> rfl

theorem push_mem_fileTrace (env : CosEnv) (f k : String)
    (h : Ev.push k ∈ fileTrace env f) : k = f ∧ env.uploadOk f = true := by
  have hk : k = f := by
    have := evKey_of_mem_fileTrace env f (Ev.push k) h
    simpa [evKey] using this
  subst hk
  refine ⟨rfl, ?_⟩
  by_cases hm : env.md5 k = ""
  · rw [fileTrace_md5_empty env k hm] at h
    simp at h
  · cases hh : env.head k with
    | found etag =>
      rw [fileTrace_found_eq env k etag hm hh] at h
      rw [List.mem_cons] at h
      rcases h with heq | h
      · simp at heq
      · by_cases hc : etagMatches etag (env.md5 k) = true
        · rw [if_pos hc] at h
          simp at h
        · rw [if_neg hc] at h
          exact uploadOk_of_push_mem_uploadEvs env k k h
    | notFound =>
      rw [fileTrace_notFound_eq env k hm hh] at h
      rw [List.mem_cons] at h
      rcases h with heq | h
      · simp at heq
      · exact uploadOk_of_push_mem_uploadEvs env k k h
    | failure =>
      rw [fileTrace_failure_eq env k hm hh] at h
      simp at h

theorem mem_phaseTrace_iff (env : CosEnv) (files : List String) (e : Ev) :
    (e ∈ phaseTrace env files ↔ ∃ f, f ∈ files ∧ e ∈ fileTrace env f) := by
  unfold phaseTrace
  simp [List.mem_flatten]

theorem mem_changedKeys_iff (env : CosEnv) (files : List String) (k : String) :
    (k ∈ changedKeys env files ↔ Ev.push k ∈ phaseTrace env files) := by
  unfold changedKeys
  rw [List.mem_filterMap]
  constructor
  · rintro ⟨e, he, hf⟩
    cases e with
    | push k0 =>
      simp at hf
      subst hf
      exact he
    | headReq k0 => simp at hf
    | uploadAttempt k0 => simp at hf
    | uploadOk k0 => simp at hf
    | failed k0 => simp at hf
  · intro h
    exact ⟨Ev.push k, h, rfl⟩

/-- C1: a file whose remote object exists with a quote-stripped `ETag`
equal to the local MD5 is neither uploaded nor added to `changedFiles`;
a 404 or a differing `ETag` leads to an upload attempt for that key. -/
theorem digestSkip_or_upload (env : CosEnv) (files : List String) (k : String)
    (hk : k ∈ files) (hm : env.md5 k ≠ "") :
    (∀ etag, env.head k = HeadResult.found (some etag) → stripQuotes etag = env.md5 k →
        Ev.uploadAttempt k ∉ phaseTrace env files ∧ k ∉ changedKeys env files)
    ∧ (env.head k = HeadResult.notFound → Ev.uploadAttempt k ∈ phaseTrace env files)
    ∧ (∀ etag, env.head k = HeadResult.found (some etag) → stripQuotes etag ≠ env.md5 k →
        Ev.uploadAttempt k ∈ phaseTrace env files) := by
  refine ⟨?_, ?_, ?_⟩
  · intro etag hh heq
    have hmatch : etagMatches (some etag) (env.md5 k) = true := by
      unfold etagMatches
      simp [heq]
    have htr : fileTrace env k = [Ev.headReq k] := by
      rw [fileTrace_found_eq env k (some etag) hm hh, if_pos hmatch]
    constructor
    · intro hmem
      obtain ⟨f, hf, hmemf⟩ := (mem_phaseTrace_iff env files _).mp hmem
      have hkey := evKey_of_mem_fileTrace env f _ hmemf
      simp [evKey] at hkey
      subst hkey
      rw [htr] at hmemf
      simp at hmemf
    · intro hmem
      have hp := (mem_changedKeys_iff env files k).mp hmem
      obtain ⟨f, hf, hmemf⟩ := (mem_phaseTrace_iff env files _).mp hp
      have hkey := evKey_of_mem_fileTrace env f _ hmemf
      simp [evKey] at hkey
      subst hkey
      rw [htr] at hmemf
      simp at hmemf
  · intro hh
    apply (mem_phaseTrace_iff env files _).mpr
    refine ⟨k, hk, ?_⟩
    rw [fileTrace_notFound_eq env k hm hh]
    unfold uploadEvs
    simp
  · intro etag hh hne
    apply (mem_phaseTrace_iff env files _).mpr
    refine ⟨k, hk, ?_⟩
    have hmatch : etagMatches (some etag) (env.md5 k) = false := by
      unfold etagMatches
      simp [hne]
    rw [fileTrace_found_eq env k (some etag) hm hh, if_neg (by simp [hmatch])]
    unfold uploadEvs
    simp

/-- Environment of the C1 witness: the remote `ETag` is the quoted local
digest, so the no-op resync skips the upload. -/
def c1Env : CosEnv :=
  ⟨fun _ => "d41d8", fun _ => HeadResult.found (some "\"d41d8\""), fun _ => true⟩

/-- Witness for C1: a matching quoted `ETag` leads to no upload attempt
and no changed key. -/
theorem digestSkip_or_upload_witness :
    Ev.uploadAttempt "a" ∉ phaseTrace c1Env ["a"] ∧ "a" ∉ changedKeys c1Env ["a"] :=
  (digestSkip_or_upload c1Env ["a"] "a" (by decide) (by decide)).1 "\"d41d8\"" rfl (by decide)

/-- A push of a key happens only strictly after a successful upload event
for the same key. -/
def PushAfterUploadOk (l : List Ev) : Prop :=
  ∀ (i : Nat) (hi : i < l.length) (k : String), l[i] = Ev.push k →
    ∃ (j : Nat) (hj : j < l.length), j < i ∧ l[j] = Ev.uploadOk k

theorem pushAfterUploadOk_of_no_push (l : List Ev) (h : ∀ k, Ev.push k ∉ l) :
    PushAfterUploadOk l := by
  intro i hi k hp
  exact absurd (hp ▸ List.getElem_mem hi) (h k)

theorem pushAfterUploadOk_upload_trace (f : String) :
    PushAfterUploadOk [Ev.headReq f, Ev.uploadAttempt f, Ev.uploadOk f, Ev.push f] := by
  intro i hi k hp
  simp only [List.length_cons, List.length_nil] at hi
  interval_cases i
  · simp at hp
  · simp at hp
  · simp at hp
  · simp at hp
    subst hp
    refine ⟨2, by simp, by omega, rfl⟩

theorem pushAfterUploadOk_append (l1 l2 : List Ev)
    (h1 : PushAfterUploadOk l1) (h2 : PushAfterUploadOk l2) :
    PushAfterUploadOk (l1 ++ l2) := by
  intro i hi k hp
  have hlen : (l1 ++ l2).length = l1.length + l2.length := List.length_append l1 l2
  rcases Nat.lt_or_ge i l1.length with hcase | hcase
  · have hg : (l1 ++ l2)[i] = l1[i] := List.getElem_append_left hcase
    obtain ⟨j, hj, hlt, hok⟩ := h1 i hcase k (by rw [← hg]; exact hp)
    have hj2 : j < (l1 ++ l2).length := by omega
    refine ⟨j, hj2, hlt, ?_⟩
    have hg2 : (l1 ++ l2)[j] = l1[j] := List.getElem_append_left hj
    rw [hg2]
    exact hok
  · have hi2 : i - l1.length < l2.length := by omega
    have hg : (l1 ++ l2)[i] = l2[i - l1.length] := List.getElem_append_right hcase
    obtain ⟨j, hj, hlt, hok⟩ := h2 (i - l1.length) hi2 k (by rw [← hg]; exact hp)
    have hj2 : j + l1.length < (l1 ++ l2).length := by omega
    refine ⟨j + l1.length, hj2, by omega, ?_⟩
    rw [← List.getElem_append_right' l1 hj]
    exact hok

theorem pushAfterUploadOk_fileTrace (env : CosEnv) (f : String) :
    PushAfterUploadOk (fileTrace env f) := by
  by_cases hm : env.md5 f = ""
  · rw [fileTrace_md5_empty env f hm]
    exact pushAfterUploadOk_of_no_push [] (by intro k; simp)
  · cases hh : env.head f with
    | found etag =>
      rw [fileTrace_found_eq env f etag hm hh]
      by_cases hc : etagMatches etag (env.md5 f) = true
      · rw [if_pos hc]
        exact pushAfterUploadOk_of_no_push _ (by intro k; simp)
      · rw [if_neg hc]
        unfold uploadEvs
        by_cases hup : env.uploadOk f = true
        · rw [if_pos hup]
          exact pushAfterUploadOk_upload_trace f
        · rw [if_neg hup]
          exact pushAfterUploadOk_of_no_push _ (by intro k; simp)
    | notFound =>
      rw [fileTrace_notFound_eq env f hm hh]
      unfold uploadEvs
      by_cases hup : env.uploadOk f = true
      · rw [if_pos hup]
        exact pushAfterUploadOk_upload_trace f
      · rw [if_neg hup]
        exact pushAfterUploadOk_of_no_push _ (by intro k; simp)
    | failure =>
      rw [fileTrace_failure_eq env f hm hh]
      exact pushAfterUploadOk_of_no_push _ (by intro k; simp)

theorem pushAfterUploadOk_phaseTrace (env : CosEnv) (files : List String) :
    PushAfterUploadOk (phaseTrace env files) := by
  induction files with
  | nil =>
    intro i hi k hp
    simp [phaseTrace] at hi
  | cons f fs ih =>
    have hsplit : phaseTrace env (f :: fs) = fileTrace env f ++ phaseTrace env fs := by
      simp [phaseTrace]
    rw [hsplit]
    exact pushAfterUploadOk_append _ _ (pushAfterUploadOk_fileTrace env f) ih

/-- C2: at every point of the upload phase, every key pushed onto
`changedFiles` was pushed strictly after the successful completion of its
own upload, and every accumulated key had a successful upload — skipped
and failed uploads never contribute a key. -/
theorem changedKeys_only_uploaded (env : CosEnv) (files : List String) :
    PushAfterUploadOk (phaseTrace env files)
    ∧ ∀ k ∈ changedKeys env files, env.uploadOk k = true := by
  refine ⟨pushAfterUploadOk_phaseTrace env files, ?_⟩
  intro k hk
  have hp := (mem_changedKeys_iff env files k).mp hk
  obtain ⟨f, hf, hmemf⟩ := (mem_phaseTrace_iff env files _).mp hp
  obtain ⟨hkf, hup⟩ := push_mem_fileTrace env f k hmemf
  subst hkf
  exact hup

/-- Environment of the C2 witness: a fresh file whose upload succeeds. -/
def c2Env : CosEnv := ⟨fun _ => "m", fun _ => HeadResult.notFound, fun _ => true⟩

/-- Witness for C2: in the concrete trace
`[headReq, uploadAttempt, uploadOk, push]` the push at index 3 is preceded
by the successful upload. -/
theorem changedKeys_only_uploaded_witness :
    ∃ (j : Nat) (hj : j < (phaseTrace c2Env ["a"]).length), j < 3 ∧
      (phaseTrace c2Env ["a"])[j] = Ev.uploadOk "a" :=
  (changedKeys_only_uploaded c2Env ["a"]).1 3 (by decide) "a" (by decide)
